import Mathlib

/-!
# x-cli multi-account session and configuration manager: a verification development

Shallow embedding of the configuration store (`config.ts`), the session
manager (`browser.ts`) and the legacy migrator of the x-cli repository,
together with proofs of the specified properties.

Modelling conventions:
* A JavaScript object with string keys is modelled as an association list
  `List (String × α)` in enumeration order; property assignment updates an
  existing key in place and appends a missing key at the end.
* Stateful functions are embedded by explicit state passing.  A function
  that throws before mutating any state returns the incoming state
  unchanged together with the error.
* `new Date().toISOString()` is passed in as an explicit `now : String`
  argument; `homedir()` as an explicit `home : String` argument.
* Strings are sequences of Unicode scalar values; the lone-surrogate
  corner of JavaScript's UTF-16 strings is outside the model.
-/

namespace XCli

/-! ## JavaScript object primitives -/

/-- Reading `m[k]` on a JavaScript object modelled as an association list. -/
def objGet (m : List (String × α)) (k : String) : Option α :=
  match m with
  | [] => none
  | (k', v) :: rest => if k' = k then some v else objGet rest k

/-- Assignment `m[k] = v` on a JavaScript object: replace in place, else append. -/
def objSet (m : List (String × α)) (k : String) (v : α) : List (String × α) :=
  match m with
  | [] => [(k, v)]
  | (k', v') :: rest => if k' = k then (k, v) :: rest else (k', v') :: objSet rest k v

/-- Deletion `delete m[k]` on a JavaScript object. -/
def objDelete (m : List (String × α)) (k : String) : List (String × α) :=
  m.filter (fun p => p.1 ≠ k)

/-- Enumeration `Object.keys(m)`. -/
def objKeys (m : List (String × α)) : List String :=
  m.map (·.1)

/-! ## Config store data model (`config.ts`) -/

/-- The source's `interface AccountInfo \x7b handle?: string; addedAt: string \x7d`. -/
structure AccountInfo where
  handle : Option String
  addedAt : String
deriving DecidableEq, Repr

/-- The source's `interface Config \x7b defaultAccount: string; accounts: Record<string, AccountInfo> \x7d`. -/
structure Config where
  defaultAccount : String
  accounts : List (String × AccountInfo)
deriving DecidableEq, Repr

/-- The source's `defaultConfig()`: the empty configuration with no default. -/
def defaultConfig : Config :=
  { defaultAccount := "", accounts := [] }

/-- The errors thrown by `resolveAccount`. -/
inductive ResolveError where
  | accountNotFound (name : String)
  | noAccountsConfigured
  | ambiguousAccount
deriving DecidableEq, Repr

/-- JavaScript truthiness of an optional string: `undefined` and `''` are falsy. -/
def jsTruthy : Option String → Bool
  | none => false
  | some s => s ≠ ""

/-- The source's `resolveAccount(explicitName?)` from `config.ts`:
selection policy over the (already loaded) configuration.
`if (explicitName)` is a JavaScript truthiness test, so an absent argument
and the empty string take the same branch. -/
def resolveAccount (explicitName : Option String) (config : Config) :
    Except ResolveError String :=
  if jsTruthy explicitName then
    let name := explicitName.getD ""
    if (objGet config.accounts name).isNone then
      .error (.accountNotFound name)
    else
      .ok name
  else if config.defaultAccount ≠ "" ∧ (objGet config.accounts config.defaultAccount).isSome then
    .ok config.defaultAccount
  else
    match objKeys config.accounts with
    | [name] => .ok name
    | [] => .error .noAccountsConfigured
    | _ => .error .ambiguousAccount

/-- The source's `registerAccount(name, handle?)` from `config.ts`, state-passing over the
persisted configuration; `now` is the value of `new Date().toISOString()`.
The record for `name` is always overwritten with a fresh `addedAt`; the
first-account test reads the map before the assignment, as in the source. -/
def registerAccount (name : String) (handle : Option String) (now : String)
    (config : Config) : Config :=
  { defaultAccount :=
      if (objKeys config.accounts).length = 0 ∨ config.defaultAccount = "" then name
      else config.defaultAccount,
    accounts := objSet config.accounts name { handle := handle, addedAt := now } }

/-- The error thrown by `removeAccount` and `setDefaultAccount`. -/
inductive ConfigError where
  | accountNotFound (name : String)
deriving DecidableEq, Repr

/-- The source's `removeAccount(name)` from `config.ts`.  Throwing before any mutation is
modelled by returning the incoming configuration unchanged with the error;
on success the mutated configuration is persisted. -/
def removeAccount (name : String) (config : Config) : Config × Option ConfigError :=
  if (objGet config.accounts name).isNone then
    (config, some (.accountNotFound name))
  else
    ({ defaultAccount :=
         if config.defaultAccount = name then
           match objKeys (objDelete config.accounts name) with
           | [] => ""
           | first :: _ => first
         else config.defaultAccount,
       accounts := objDelete config.accounts name }, none)

/-- The source's `setDefaultAccount(name)` from `config.ts`. -/
def setDefaultAccount (name : String) (config : Config) : Config × Option ConfigError :=
  if (objGet config.accounts name).isNone then
    (config, some (.accountNotFound name))
  else
    ({ config with defaultAccount := name }, none)

/-- The source's `updateAccountHandle(name, handle)` from `config.ts`: silent no-op when
the account does not exist. -/
def updateAccountHandle (name : String) (handle : String) (config : Config) : Config :=
  match objGet config.accounts name with
  | some info =>
      { config with accounts := objSet config.accounts name { info with handle := some handle } }
  | none => config

/-! ## Operation sequences over the config store -/

/-- One mutating call against the config store. -/
inductive ConfigOp where
  | register (name : String) (handle : Option String) (now : String)
  | remove (name : String)
  | setDefault (name : String)

/-- Execute one operation; a thrown error leaves the persisted state unchanged. -/
def applyOp (op : ConfigOp) (config : Config) : Config :=
  match op with
  | .register name handle now => registerAccount name handle now config
  | .remove name => (removeAccount name config).1
  | .setDefault name => (setDefaultAccount name config).1

/-- Run a sequence of operations starting from the empty configuration. -/
def runOps (ops : List ConfigOp) : Config :=
  ops.foldl (fun c op => applyOp op c) defaultConfig

/-- The no-dangling-default invariant: `defaultAccount` is empty or a
present key of `accounts`. -/
def goodDefault (c : Config) : Prop :=
  c.defaultAccount = "" ∨ (objGet c.accounts c.defaultAccount).isSome

/-! ## Concrete configurations used as test inputs -/

/-- A configuration holding the single account `"alice"` and no default. -/
def cfgAliceOnly : Config :=
  { defaultAccount := "",
    accounts := [("alice", { handle := none, addedAt := "2024-01-01T00:00:00.000Z" })] }

/-- A configuration holding two accounts and no default. -/
def cfgTwoNoDefault : Config :=
  { defaultAccount := "",
    accounts := [("alice", { handle := none, addedAt := "t1" }),
                 ("bob", { handle := some "@bob", addedAt := "t2" })] }

/-- A configuration holding two accounts with default `"bob"`. -/
def cfgTwoDefaultBob : Config :=
  { defaultAccount := "bob",
    accounts := [("alice", { handle := none, addedAt := "t1" }),
                 ("bob", { handle := some "@bob", addedAt := "t2" })] }

/-- The configuration after first registering `"alice"`. -/
def cfgFirstRegistration : Config :=
  registerAccount "alice" none "2024-01-01T00:00:00.000Z" defaultConfig

/-- The configuration after registering `"alice"` again at a later time. -/
def cfgReRegistration : Config :=
  registerAccount "alice" none "2025-06-15T12:00:00.000Z" cfgFirstRegistration

/-- A configuration used to witness the error-atomicity theorem. -/
def cfgAtomicity : Config :=
  { defaultAccount := "alice",
    accounts := [("alice", { handle := some "@alice", addedAt := "t0" })] }

/-! ## Session manager (`browser.ts`)

The module-level mutable variables `browser`, `context`, `activeAccount`
are modelled as an explicit state record; browser/context handles are
opaque numeric identifiers.  Each operation returns the new state together
with the ordered list of observable browser-driver calls it performed. -/

/-- The module-level state of `browser.ts`: `let browser`, `let context`,
`let activeAccount`. -/
structure BrowserState where
  browser : Option Nat
  context : Option Nat
  activeAccount : Option String
deriving DecidableEq, Repr

/-- The initial state: all three module variables are `null`. -/
def initialBrowserState : BrowserState :=
  { browser := none, context := none, activeAccount := none }

/-- Observable browser-driver calls, in program order. -/
inductive SessionEvent where
  /-- The call `context.close()`: graceful teardown of the live session. -/
  | release
  /-- The call `browser.close()`: shutdown of a separately launched browser. -/
  | browserShutdown
  /-- The call `chromium.launchPersistentContext(getAccountDataDir(account), …)`. -/
  | launch (account : String)
  /-- The call `chromium.launch()` followed by `browser.newContext(…)` keyed to `account`
  (the `getBrowserContext` path). -/
  | launchShared (account : String)
deriving DecidableEq, Repr

/-- The source's `closeBrowser()` from `browser.ts`: closes the context if open, closes
the browser if open, and nulls out all three module variables. -/
def closeBrowser (s : BrowserState) : BrowserState × List SessionEvent :=
  (initialBrowserState,
    (if s.context.isSome then [.release] else []) ++
    (if s.browser.isSome then [.browserShutdown] else []))

/-- The source's `getPersistentContext(accountName)` from `browser.ts`: reuse the live
context when it exists and belongs to the same account; otherwise close
any existing session and launch a persistent context rooted at the
account's data directory.  `fresh` is the handle of the newly launched
context.  Returns (new state, events, returned context handle). -/
def getPersistentContext (accountName : String) (fresh : Nat) (s : BrowserState) :
    BrowserState × List SessionEvent × Nat :=
  if h : s.context.isSome ∧ s.activeAccount = some accountName then
    (s, [], s.context.get h.1)
  else
    ({ browser := (closeBrowser s).1.browser, context := some fresh,
       activeAccount := some accountName },
     (closeBrowser s).2 ++ [.launch accountName], fresh)

/-- The source's `getBrowserContext(accountName)` from `browser.ts`: same reuse guard,
but launches a browser plus a fresh context keyed to the account's saved
storage state. -/
def getBrowserContext (accountName : String) (freshBrowser freshCtx : Nat)
    (s : BrowserState) : BrowserState × List SessionEvent × Nat :=
  if h : s.context.isSome ∧ s.activeAccount = some accountName then
    (s, [], s.context.get h.1)
  else
    ({ browser := some freshBrowser, context := some freshCtx,
       activeAccount := some accountName },
     (closeBrowser s).2 ++ [.launchShared accountName], freshCtx)

/-- States of the session manager reachable from process start through its
public operations. -/
inductive ReachableBrowserState : BrowserState → Prop where
  | init : ReachableBrowserState initialBrowserState
  | persistent (s : BrowserState) (account : String) (fresh : Nat) :
      ReachableBrowserState s →
      ReachableBrowserState (getPersistentContext account fresh s).1
  | shared (s : BrowserState) (account : String) (freshBrowser freshCtx : Nat) :
      ReachableBrowserState s →
      ReachableBrowserState (getBrowserContext account freshBrowser freshCtx s).1
  | close (s : BrowserState) :
      ReachableBrowserState s → ReachableBrowserState (closeBrowser s).1

/-- A reachable state with a live session for `"alice"`. -/
def openAliceState : BrowserState :=
  (getPersistentContext "alice" 0 initialBrowserState).1

/-! ## Per-account storage directories (`config.ts` / `browser.ts`)

The directory tree is modelled as the list of existing directory paths;
`existsSync` is membership and recursive removal deletes a path together
with everything below it. -/

/-- The path `ACCOUNTS_DIR = join(homedir(), '.x-cli', 'accounts')`. -/
def accountsDirPath (home : String) : String :=
  home ++ "/.x-cli/accounts"

/-- The source's `getAccountDataDir(name)` from `config.ts`: `join(ACCOUNTS_DIR, name)` —
the account name is used verbatim as a path segment. -/
def getAccountDataDir (home : String) (name : String) : String :=
  accountsDirPath home ++ "/" ++ name

/-- Whether `p` lies in the subtree rooted at `root`: it is `root` itself or a path
below it. -/
def underPath (root p : String) : Bool :=
  p == root || (root.data ++ ['/']).isPrefixOf p.data

/-- The call `rmSync(root, \x7b recursive: true, force: true \x7d)` over the directory set:
removes `root` and everything below it. -/
def rmRecursive (fs : List String) (root : String) : List String :=
  fs.filter (fun p => !underPath root p)

/-- The source's `clearSessionData(accountName)` from `browser.ts`: recursively delete
the account's data directory when it exists; silently do nothing when it
does not. -/
def clearSessionData (home name : String) (fs : List String) : List String :=
  if getAccountDataDir home name ∈ fs then rmRecursive fs (getAccountDataDir home name)
  else fs

/-- A directory tree where account `"a/b"`'s data directory is nested
inside account `"a"`'s data directory. -/
def fsNestedAccounts : List String :=
  ["/home/user/.x-cli/accounts/a", "/home/user/.x-cli/accounts/a/b"]

/-- A directory tree with two sibling account directories. -/
def fsSiblingAccounts : List String :=
  ["/home/user/.x-cli/accounts/a", "/home/user/.x-cli/accounts/b"]

/-! ## JSON values and `JSON.stringify(·, null, 2)`

`saveConfig` writes `JSON.stringify(config, null, 2) + '\n'` and
`loadConfig` returns the raw result of `JSON.parse`.  Both builtins are
embedded over an inductive JSON value type.  A number value carries its
source lexeme (configuration documents contain only strings and objects,
so number formatting is never exercised by the store). -/

/-- A JSON value, as produced by `JSON.parse`. -/
inductive Json where
  | null
  | bool (b : Bool)
  | num (lexeme : String)
  | str (s : String)
  | arr (elems : List Json)
  | obj (members : List (String × Json))

/-- Lowercase hexadecimal digit, as produced by `toString(16)`. -/
def hexDigitChar (n : Nat) : Char :=
  if n < 10 then Char.ofNat (48 + n) else Char.ofNat (97 + (n - 10))

/-- How `JSON.stringify` escapes a single string character: `"` and `\`
are backslash-escaped, the named control characters use their short
escapes, the remaining control characters use `\u00xx`, and every other
character is emitted verbatim. -/
def escapeChar (c : Char) : List Char :=
  if c = '"' then ['\\', '"']
  else if c = '\\' then ['\\', '\\']
  else if c = Char.ofNat 8 then ['\\', 'b']
  else if c = Char.ofNat 12 then ['\\', 'f']
  else if c = '\n' then ['\\', 'n']
  else if c = '\r' then ['\\', 'r']
  else if c = '\t' then ['\\', 't']
  else if c.toNat < 32 then
    ['\\', 'u', '0', '0', hexDigitChar (c.toNat / 16), hexDigitChar (c.toNat % 16)]
  else [c]

/-- The escaped body of a JSON string literal. -/
def escList (s : String) : List Char :=
  (s.data.map escapeChar).flatten

/-- A JSON string literal: quote, escaped body, quote. -/
def quoteString (s : String) : List Char :=
  '"' :: escList s ++ ['"']

/-- The two-space gap of `JSON.stringify(·, null, 2)`. -/
def jsonGap : List Char :=
  [' ', ' ']

mutual

/-- Serialization `JSON.stringify(value, null, 2)` at a given accumulated indentation. -/
def renderJson (indent : List Char) : Json → List Char
  | .null => "null".data
  | .bool true => "true".data
  | .bool false => "false".data
  | .num lexeme => lexeme.data
  | .str s => quoteString s
  | .arr [] => ['[', ']']
  | .arr (e :: es) =>
      '[' :: '\n' :: (renderElems (indent ++ jsonGap) e es ++ '\n' :: (indent ++ [']']))
  | .obj [] => ['{', '}']
  | .obj (m :: ms) =>
      '{' :: '\n' :: (renderMembers (indent ++ jsonGap) m ms ++ '\n' :: (indent ++ ['}']))
termination_by j => sizeOf j

/-- The members of a non-empty object, one per line, comma separated. -/
def renderMembers (indent : List Char) : String × Json → List (String × Json) → List Char
  | (k, v), [] => indent ++ (quoteString k ++ ':' :: ' ' :: renderJson indent v)
  | (k, v), m :: ms =>
      (indent ++ (quoteString k ++ ':' :: ' ' :: renderJson indent v)) ++
        ',' :: '\n' :: renderMembers indent m ms
termination_by m ms => sizeOf m + sizeOf ms

/-- The elements of a non-empty array, one per line, comma separated. -/
def renderElems (indent : List Char) : Json → List Json → List Char
  | e, [] => indent ++ renderJson indent e
  | e, e' :: es => (indent ++ renderJson indent e) ++ ',' :: '\n' :: renderElems indent e' es
termination_by e es => sizeOf e + sizeOf es

end

/-- The JSON value of an `AccountInfo`: the object literal `{ handle, addedAt }`
with the `handle` property dropped by `JSON.stringify` when it is `undefined`. -/
def accountInfoToJson (info : AccountInfo) : Json :=
  .obj ((match info.handle with
         | some h => [("handle", Json.str h)]
         | none => []) ++ [("addedAt", Json.str info.addedAt)])

/-- The JSON value of a `Config`, in property enumeration order. -/
def configToJson (c : Config) : Json :=
  .obj [("defaultAccount", .str c.defaultAccount),
        ("accounts", .obj (c.accounts.map (fun p => (p.1, accountInfoToJson p.2))))]

/-- Serialization `JSON.stringify(value, null, 2) + '\n'` applied to an in-memory value,
as `saveConfig` does after a `loadConfig`. -/
def saveJsonValue (j : Json) : String :=
  ⟨renderJson [] j ++ ['\n']⟩

/-- The source's `saveConfig(config)` from `config.ts`: the file content written is
`JSON.stringify(config, null, 2) + '\n'`. -/
def saveConfig (config : Config) : String :=
  saveJsonValue (configToJson config)

/-! ## `JSON.parse` -/

/-- JSON whitespace. -/
def isJsonWs (c : Char) : Bool :=
  c = ' ' || c = '\t' || c = '\n' || c = '\r'

/-- Drop leading JSON whitespace. -/
def skipWs : List Char → List Char
  | [] => []
  | c :: cs => if isJsonWs c then skipWs cs else c :: cs

/-- Every character of `l` is JSON whitespace. -/
def IsWsList (l : List Char) : Prop :=
  ∀ c ∈ l, isJsonWs c = true

/-- The value of a hexadecimal digit. -/
def hexVal (c : Char) : Option Nat :=
  if 48 ≤ c.toNat ∧ c.toNat ≤ 57 then some (c.toNat - 48)
  else if 97 ≤ c.toNat ∧ c.toNat ≤ 102 then some (c.toNat - 87)
  else if 65 ≤ c.toNat ∧ c.toNat ≤ 70 then some (c.toNat - 55)
  else none

/-- The named single-character escapes of JSON strings. -/
def unescapeChar (e : Char) : Option Char :=
  if e = '"' then some '"'
  else if e = '\\' then some '\\'
  else if e = '/' then some '/'
  else if e = 'b' then some (Char.ofNat 8)
  else if e = 'f' then some (Char.ofNat 12)
  else if e = 'n' then some '\n'
  else if e = 'r' then some '\r'
  else if e = 't' then some '\t'
  else none

mutual

/-- Parse a JSON string body after the opening quote: the decoded
characters and the input following the closing quote.  Raw control
characters are rejected, as in JSON. -/
def parseStringBody : List Char → Option (List Char × List Char)
  | [] => none
  | c :: cs =>
    if c = '"' then some ([], cs)
    else if c = '\\' then parseEscapeBody cs
    else if c.toNat < 32 then none
    else (parseStringBody cs).map (fun p => (c :: p.1, p.2))
termination_by l => l.length

/-- Parse the remainder of a string body following a backslash. -/
def parseEscapeBody : List Char → Option (List Char × List Char)
  | [] => none
  | e :: rest =>
    if e = 'u' then
      match rest with
      | a :: b :: c :: d :: rest' =>
        match hexVal a, hexVal b, hexVal c, hexVal d with
        | some x, some y, some z, some w =>
            (parseStringBody rest').map
              (fun p => (Char.ofNat (((x * 16 + y) * 16 + z) * 16 + w) :: p.1, p.2))
        | _, _, _, _ => none
      | _ => none
    else
      match unescapeChar e with
      | some c => (parseStringBody rest).map (fun p => (c :: p.1, p.2))
      | none => none
termination_by l => l.length

end

/-- Longest prefix of decimal digits. -/
def takeDigits : List Char → List Char × List Char
  | [] => ([], [])
  | c :: cs =>
    if c.isDigit then
      match takeDigits cs with
      | (ds, r) => (c :: ds, r)
    else ([], c :: cs)

/-- The integer part of a JSON number: `0` or a nonzero digit followed by
digits. -/
def parseIntDigits : List Char → Option (List Char × List Char)
  | [] => none
  | c :: cs =>
    if c = '0' then some ([c], cs)
    else if c.isDigit then
      match takeDigits cs with
      | (ds, r) => some (c :: ds, r)
    else none

/-- The optional fraction part of a JSON number. -/
def parseFracPart : List Char → Option (List Char × List Char)
  | '.' :: cs =>
    (match takeDigits cs with
     | ([], _) => none
     | (ds, r) => some ('.' :: ds, r))
  | l => some ([], l)

/-- The optional exponent part of a JSON number. -/
def parseExpPart : List Char → Option (List Char × List Char)
  | [] => some ([], [])
  | c :: cs =>
    if c = 'e' ∨ c = 'E' then
      match cs with
      | s :: cs' =>
        if s = '+' ∨ s = '-' then
          match takeDigits cs' with
          | ([], _) => none
          | (ds, r) => some (c :: s :: ds, r)
        else
          match takeDigits cs with
          | ([], _) => none
          | (ds, r) => some (c :: ds, r)
      | [] => none
    else some ([], c :: cs)

/-- A JSON number token, returned as its lexeme. -/
def parseNumber (l : List Char) : Option (List Char × List Char) :=
  match l with
  | '-' :: cs =>
    (match parseIntDigits cs with
     | none => none
     | some (ip, r1) =>
       match parseFracPart r1 with
       | none => none
       | some (fp, r2) =>
         match parseExpPart r2 with
         | none => none
         | some (ep, r3) => some ('-' :: (ip ++ fp ++ ep), r3))
  | _ =>
    match parseIntDigits l with
    | none => none
    | some (ip, r1) =>
      match parseFracPart r1 with
      | none => none
      | some (fp, r2) =>
        match parseExpPart r2 with
        | none => none
        | some (ep, r3) => some (ip ++ fp ++ ep, r3)

mutual

/-- Parse one JSON value.  The fuel bounds the recursion into nested
values; every nesting step consumes at least one input character, so any
fuel exceeding the input length is enough. -/
def parseValue : Nat → List Char → Option (Json × List Char)
  | 0, _ => none
  | fuel + 1, l =>
    match skipWs l with
    | [] => none
    | c :: cs =>
      if c = '"' then
        match parseStringBody cs with
        | some (s, r) => some (.str ⟨s⟩, r)
        | none => none
      else if c = '{' then
        match skipWs cs with
        | [] => none
        | c' :: cs' =>
          if c' = '}' then some (.obj [], cs')
          else
            match parseMembers fuel (c' :: cs') with
            | some (ms, r) => some (.obj ms, r)
            | none => none
      else if c = '[' then
        match skipWs cs with
        | [] => none
        | c' :: cs' =>
          if c' = ']' then some (.arr [], cs')
          else
            match parseElems fuel (c' :: cs') with
            | some (es, r) => some (.arr es, r)
            | none => none
      else if c = 't' then
        match cs with
        | 'r' :: 'u' :: 'e' :: r => some (.bool true, r)
        | _ => none
      else if c = 'f' then
        match cs with
        | 'a' :: 'l' :: 's' :: 'e' :: r => some (.bool false, r)
        | _ => none
      else if c = 'n' then
        match cs with
        | 'u' :: 'l' :: 'l' :: r => some (.null, r)
        | _ => none
      else
        match parseNumber (c :: cs) with
        | some (lex, r) => some (.num ⟨lex⟩, r)
        | none => none

/-- Parse the members of a non-empty object, up to and including the
closing brace. -/
def parseMembers : Nat → List Char → Option (List (String × Json) × List Char)
  | 0, _ => none
  | fuel + 1, l =>
    match skipWs l with
    | c :: cs =>
      if c = '"' then
        match parseStringBody cs with
        | some (key, r1) =>
          match skipWs r1 with
          | c1 :: r2 =>
            if c1 = ':' then
              match parseValue fuel r2 with
              | some (v, r3) =>
                match skipWs r3 with
                | c2 :: r4 =>
                  if c2 = ',' then
                    match parseMembers fuel r4 with
                    | some (ms, r5) => some ((⟨key⟩, v) :: ms, r5)
                    | none => none
                  else if c2 = '}' then some ([(⟨key⟩, v)], r4)
                  else none
                | [] => none
              | none => none
            else none
          | [] => none
        | none => none
      else none
    | [] => none

/-- Parse the elements of a non-empty array, up to and including the
closing bracket. -/
def parseElems : Nat → List Char → Option (List Json × List Char)
  | 0, _ => none
  | fuel + 1, l =>
    match parseValue fuel l with
    | some (v, r1) =>
      match skipWs r1 with
      | c1 :: r2 =>
        if c1 = ',' then
          match parseElems fuel r2 with
          | some (es, r3) => some (v :: es, r3)
          | none => none
        else if c1 = ']' then some ([v], r2)
        else none
      | [] => none
    | none => none

end

/-- Parsing `JSON.parse(text)`: one JSON document followed only by whitespace. -/
def parseJson (text : String) : Option Json :=
  match parseValue (text.data.length + 1) text.data with
  | some (j, rest) => if skipWs rest = [] then some j else none
  | none => none

/-- The source's `loadConfig()` from `config.ts`, at the level of the raw JavaScript
value it returns: a missing file yields `defaultConfig()`, unparsable
content yields `defaultConfig()` (the `catch` branch), and otherwise the
parsed value is returned unvalidated.  The function is total — no disk
state makes it throw. -/
def loadConfigRaw (file : Option String) : Json :=
  match file with
  | none => configToJson defaultConfig
  | some content =>
    match parseJson content with
    | some j => j
    | none => configToJson defaultConfig

/-! ## Legacy migrator (`config.ts`) -/

/-- The on-disk state relevant to `migrateIfNeeded`: the legacy directory
`~/.x-cli-data` (with an opaque content identifier when it exists), the
configuration file content, the accounts root, and the per-account
directories keyed by name. -/
structure MigrationFs where
  legacyDir : Option Nat
  configFile : Option String
  accountsRootExists : Bool
  accountDirs : List (String × Nat)
deriving DecidableEq, Repr

/-- The source's `migrateIfNeeded()` from `config.ts`: no-op when the legacy directory
does not exist or a configuration file already exists; otherwise create
the accounts root, rename the legacy directory to the account directory
`"default"` (the same content moves — no copy), and persist a
configuration whose only account is `"default"`, set as default. -/
def migrateIfNeeded (now : String) (fs : MigrationFs) : MigrationFs :=
  match fs.legacyDir with
  | none => fs
  | some content =>
    if fs.configFile.isSome then fs
    else
      { legacyDir := none,
        configFile := some (saveConfig
          { defaultAccount := "default",
            accounts := [("default", { handle := none, addedAt := now })] }),
        accountsRootExists := true,
        accountDirs := objSet fs.accountDirs "default" content }

/-- The continuation following one rendered object member: nothing for the
last member, a comma and newline before the remaining members otherwise. -/
def memberSep (indent : List Char) (ms : List (String × Json)) : List Char :=
  match ms with
  | [] => []
  | m :: ms' => ',' :: '\n' :: renderMembers indent m ms'

/-- A disk state with a legacy directory and no configuration file. -/
def fsLegacyOnly : MigrationFs :=
  { legacyDir := some 42, configFile := none,
    accountsRootExists := false, accountDirs := [] }

/-- A disk state with no legacy directory. -/
def fsNoLegacy : MigrationFs :=
  { legacyDir := none, configFile := none,
    accountsRootExists := false, accountDirs := [] }

/-- A disk state with both a legacy directory and a configuration file. -/
def fsAlreadyMigrated : MigrationFs :=
  { legacyDir := some 7, configFile := some "already",
    accountsRootExists := true, accountDirs := [("default", 7)] }

/-! # Theorems -/

/-! ## Association-list lemmas -/

theorem objGet_objSet_self (m : List (String × α)) (k : String) (v : α) :
    objGet (objSet m k v) k = some v := by
  induction m with
  | nil => simp [objGet, objSet]
  | cons p rest ih =>
    obtain ⟨pk, pv⟩ := p
    by_cases h : pk = k
    · simp [objSet, h, objGet]
    · simp [objSet, h, objGet, ih]

theorem objGet_objSet_ne (m : List (String × α)) (k k' : String) (v : α)
    (h : k' ≠ k) : objGet (objSet m k v) k' = objGet m k' := by
  induction m with
  | nil =>
    simp only [objSet, objGet]
    rw [if_neg (fun hh => h hh.symm)]
  | cons p rest ih =>
    obtain ⟨pk, pv⟩ := p
    by_cases hp : pk = k
    · subst hp
      simp only [objSet, if_pos rfl, objGet]
      rw [if_neg (fun hh => h hh.symm), if_neg (fun hh => h hh.symm)]
    · simp only [objSet, if_neg hp, objGet]
      by_cases hp' : pk = k'
      · rw [if_pos hp', if_pos hp']
      · rw [if_neg hp', if_neg hp', ih]

theorem objGet_objDelete_ne (m : List (String × α)) (k k' : String)
    (h : k' ≠ k) : objGet (objDelete m k) k' = objGet m k' := by
  induction m with
  | nil => rfl
  | cons p rest ih =>
    obtain ⟨pk, pv⟩ := p
    by_cases hp : pk = k
    · have h1 : objDelete ((pk, pv) :: rest) k = objDelete rest k := by
        simp [objDelete, List.filter_cons, hp]
      rw [h1, ih]
      simp only [objGet]
      rw [if_neg (by rintro rfl; exact h hp)]
    · have h1 : objDelete ((pk, pv) :: rest) k = (pk, pv) :: objDelete rest k := by
        simp [objDelete, List.filter_cons, hp]
      rw [h1]
      simp only [objGet]
      by_cases hp' : pk = k'
      · rw [if_pos hp', if_pos hp']
      · rw [if_neg hp', if_neg hp', ih]

theorem objGet_head_key (m : List (String × α)) (k : String) (rest : List String)
    (h : objKeys m = k :: rest) : (objGet m k).isSome := by
  cases m with
  | nil => simp [objKeys] at h
  | cons p m' =>
    simp only [objKeys, List.map_cons, List.cons.injEq] at h
    simp [objGet, h.1]

/-! ## Preservation of the default-account invariant (claim C2) -/

theorem goodDefault_register (name : String) (handle : Option String) (now : String)
    (c : Config) (h : goodDefault c) :
    goodDefault (registerAccount name handle now c) := by
  unfold goodDefault registerAccount
  dsimp only
  by_cases hfirst : (objKeys c.accounts).length = 0 ∨ c.defaultAccount = ""
  · right
    rw [if_pos hfirst, objGet_objSet_self]
    rfl
  · right
    rw [if_neg hfirst]
    push_neg at hfirst
    rcases h with h | h
    · exact absurd h hfirst.2
    · by_cases hd : c.defaultAccount = name
      · rw [hd, objGet_objSet_self]; rfl
      · rw [objGet_objSet_ne _ _ _ _ hd]; exact h

theorem goodDefault_remove (name : String) (c : Config) (h : goodDefault c) :
    goodDefault (removeAccount name c).1 := by
  unfold removeAccount
  by_cases habs : (objGet c.accounts name).isNone
  · rw [if_pos habs]; exact h
  · rw [if_neg habs]
    unfold goodDefault
    dsimp only
    by_cases hd : c.defaultAccount = name
    · rw [if_pos hd]
      cases hkeys : objKeys (objDelete c.accounts name) with
      | nil => left; rfl
      | cons first rest => right; exact objGet_head_key _ first rest hkeys
    · rw [if_neg hd]
      rcases h with h | h
      · left; exact h
      · right; rw [objGet_objDelete_ne _ _ _ hd]; exact h

theorem goodDefault_setDefault (name : String) (c : Config) (h : goodDefault c) :
    goodDefault (setDefaultAccount name c).1 := by
  unfold setDefaultAccount
  by_cases habs : (objGet c.accounts name).isNone
  · rw [if_pos habs]; exact h
  · rw [if_neg habs]
    right
    cases ho : objGet c.accounts name with
    | none => exact absurd (by simp [ho]) habs
    | some v => simp [ho]

theorem goodDefault_applyOp (op : ConfigOp) (c : Config) (h : goodDefault c) :
    goodDefault (applyOp op c) := by
  cases op with
  | register name handle now => exact goodDefault_register name handle now c h
  | remove name => exact goodDefault_remove name c h
  | setDefault name => exact goodDefault_setDefault name c h

/-- C2: for every finite sequence of `register`, `remove` and `setDefault`
operations starting from the empty configuration, the resulting
configuration's `defaultAccount` is either the empty string or a key
present in `accounts` (no dangling default). -/
theorem runOps_goodDefault (ops : List ConfigOp) : goodDefault (runOps ops) := by
  suffices h : ∀ c, goodDefault c → goodDefault (ops.foldl (fun c op => applyOp op c) c) by
    exact h defaultConfig (Or.inl rfl)
  induction ops with
  | nil => exact fun c h => h
  | cons op ops ih =>
    intro c h
    exact ih _ (goodDefault_applyOp op c h)

/-! ## Resolution policy (claim C3) -/

/-- C3 counterexample: the empty string is an explicit name that is not
present in the accounts map, yet `resolveAccount` does not fail with
`AccountNotFound` — the JavaScript truthiness test `if (explicitName)`
treats `''` as absent, and the sole account `"alice"` is substituted. -/
theorem resolveAccount_emptyName_counterexample :
    objGet cfgAliceOnly.accounts "" = none ∧
    resolveAccount (some "") cfgAliceOnly = .ok "alice" ∧
    resolveAccount (some "") cfgAliceOnly ≠ .error (.accountNotFound "") := by
  have h2 : resolveAccount (some "") cfgAliceOnly = .ok "alice" := rfl
  exact ⟨rfl, h2, by rw [h2]; exact fun h => Except.noConfusion h⟩

/-- C3 (amended): the selection policy holds with "explicit name" read as a
non-empty explicit name — an empty-string explicit name is treated exactly
as if no explicit name was given.  With a non-empty explicit name absent
from `accounts`, resolution fails with `AccountNotFound` and never
substitutes another account; with a present one it returns it.  With no
explicit name: a non-empty default present in `accounts` is returned; a
dangling or empty default is treated as unset, in which case the sole
account is returned if exactly one is configured, `NoAccountsConfigured`
is raised if none are, and `AmbiguousAccount` if several are. -/
theorem resolveAccount_policy (c : Config) :
    (∀ name, name ≠ "" → objGet c.accounts name = none →
      resolveAccount (some name) c = .error (.accountNotFound name)) ∧
    (∀ name, name ≠ "" → (objGet c.accounts name).isSome →
      resolveAccount (some name) c = .ok name) ∧
    (resolveAccount (some "") c = resolveAccount none c) ∧
    (c.defaultAccount ≠ "" → (objGet c.accounts c.defaultAccount).isSome →
      resolveAccount none c = .ok c.defaultAccount) ∧
    ((c.defaultAccount = "" ∨ objGet c.accounts c.defaultAccount = none) →
      ∀ name, objKeys c.accounts = [name] → resolveAccount none c = .ok name) ∧
    (c.accounts = [] → resolveAccount none c = .error .noAccountsConfigured) ∧
    ((c.defaultAccount = "" ∨ objGet c.accounts c.defaultAccount = none) →
      2 ≤ c.accounts.length → resolveAccount none c = .error .ambiguousAccount) := by
  have hdangling : ∀ (hd : c.defaultAccount = "" ∨ objGet c.accounts c.defaultAccount = none),
      ¬ (c.defaultAccount ≠ "" ∧ (objGet c.accounts c.defaultAccount).isSome) := by
    rintro (hd | hd) ⟨h1, h2⟩
    · exact h1 hd
    · rw [hd] at h2; exact Bool.noConfusion h2
  have hemptyName : ¬ (jsTruthy (some "") = true) := by simp [jsTruthy]
  have hnoName : ¬ (jsTruthy (none : Option String) = true) := by simp [jsTruthy]
  refine ⟨?_, ?_, ?_, ?_, ?_, ?_, ?_⟩
  · intro name hne hget
    have htrue : jsTruthy (some name) = true := by simp [jsTruthy, hne]
    unfold resolveAccount
    rw [if_pos htrue]
    simp [hget]
  · intro name hne hget
    have htrue : jsTruthy (some name) = true := by simp [jsTruthy, hne]
    have hnotNone : ¬ ((objGet c.accounts ((some name).getD "")).isNone = true) := by
      simp only [Option.getD_some, Option.isNone_iff_eq_none]
      intro hn; rw [hn] at hget; exact Bool.noConfusion hget
    unfold resolveAccount
    rw [if_pos htrue, if_neg hnotNone]
    rfl
  · unfold resolveAccount
    rw [if_neg hemptyName, if_neg hnoName]
  · intro h1 h2
    unfold resolveAccount
    rw [if_neg hnoName, if_pos ⟨h1, h2⟩]
  · intro hd name hkeys
    unfold resolveAccount
    rw [if_neg hnoName, if_neg (hdangling hd), hkeys]
  · intro hempty
    have hd : ¬ (c.defaultAccount ≠ "" ∧ (objGet c.accounts c.defaultAccount).isSome) := by
      rintro ⟨h1, h2⟩; rw [hempty] at h2; exact Bool.noConfusion h2
    unfold resolveAccount
    rw [if_neg hnoName, if_neg hd, hempty]
    rfl
  · intro hd hlen
    unfold resolveAccount
    rw [if_neg hnoName, if_neg (hdangling hd)]
    match hacc : c.accounts, hlen with
    | p1 :: p2 :: rest, _ => rfl

/-- C3 amended-policy witness: the policy instantiated at concrete
configurations. -/
theorem resolveAccount_policy_witness :
    resolveAccount (some "carol") cfgAliceOnly = .error (.accountNotFound "carol") ∧
    resolveAccount (some "alice") cfgAliceOnly = .ok "alice" ∧
    resolveAccount none cfgAliceOnly = .ok "alice" ∧
    resolveAccount none cfgTwoDefaultBob = .ok "bob" ∧
    resolveAccount none defaultConfig = .error .noAccountsConfigured ∧
    resolveAccount none cfgTwoNoDefault = .error .ambiguousAccount := by
  refine ⟨?_, ?_, ?_, ?_, ?_, ?_⟩
  · exact (resolveAccount_policy cfgAliceOnly).1 "carol" (by decide) rfl
  · exact (resolveAccount_policy cfgAliceOnly).2.1 "alice" (by decide) rfl
  · exact (resolveAccount_policy cfgAliceOnly).2.2.2.2.1 (Or.inl rfl) "alice" rfl
  · exact (resolveAccount_policy cfgTwoDefaultBob).2.2.2.1 (by decide) rfl
  · exact (resolveAccount_policy defaultConfig).2.2.2.2.2.1 rfl
  · exact (resolveAccount_policy cfgTwoNoDefault).2.2.2.2.2.2 (Or.inl rfl) (by decide)

/-! ## Re-registration and `addedAt` (claim C5) -/

/-- C5 counterexample: re-registering an existing account resets its
`addedAt` — `registerAccount` always overwrites the record with a fresh
timestamp, so the creation time is not preserved. -/
theorem registerAccount_addedAt_counterexample :
    (objGet cfgFirstRegistration.accounts "alice").map AccountInfo.addedAt =
      some "2024-01-01T00:00:00.000Z" ∧
    (objGet cfgReRegistration.accounts "alice").map AccountInfo.addedAt =
      some "2025-06-15T12:00:00.000Z" ∧
    ("2025-06-15T12:00:00.000Z" : String) ≠ "2024-01-01T00:00:00.000Z" := by
  refine ⟨rfl, rfl, by decide⟩

/-- C5 (amended): every `register` call — whether the account is new or
already present — overwrites the record for `name` with the handle passed
and a fresh `addedAt` timestamp. -/
theorem registerAccount_addedAt_overwrites (name : String) (handle : Option String)
    (now : String) (c : Config) :
    objGet (registerAccount name handle now c).accounts name =
      some { handle := handle, addedAt := now } := by
  unfold registerAccount
  dsimp only
  exact objGet_objSet_self _ _ _

/-! ## Error atomicity of `removeAccount` / `setDefaultAccount` (claim C10) -/

/-- C10: removing or defaulting to an absent account name throws
`AccountNotFound` before any mutation, so the persisted configuration
(modelled as the `Config` value held by the file) is returned exactly as
it was; in the source both functions throw before ever calling
`saveConfig`. -/
theorem remove_setDefault_error_atomicity (name : String) (c : Config)
    (h : objGet c.accounts name = none) :
    removeAccount name c = (c, some (.accountNotFound name)) ∧
    setDefaultAccount name c = (c, some (.accountNotFound name)) := by
  constructor
  · unfold removeAccount; rw [if_pos (by simp [h])]
  · unfold setDefaultAccount; rw [if_pos (by simp [h])]

/-- C10 witness: the atomicity theorem applied at a concrete configuration
and an absent name. -/
theorem remove_setDefault_error_atomicity_witness :
    removeAccount "ghost" cfgAtomicity = (cfgAtomicity, some (.accountNotFound "ghost")) ∧
    setDefaultAccount "ghost" cfgAtomicity = (cfgAtomicity, some (.accountNotFound "ghost")) :=
  remove_setDefault_error_atomicity "ghost" cfgAtomicity rfl

/-! ## Session switching (claims C1 and C7) -/

/-- C1: from every reachable state with a live session for account `A`,
acquiring a session for a different account `B` performs exactly one
`release` (the teardown of `A`'s context), strictly before the single
launch of `B`'s session, and ends in a state whose only live context is
`B`'s — so sessions for two different accounts are never simultaneously
live. -/
theorem acquire_switch_releases_before_launch (s : BrowserState) (A B : String)
    (fresh : Nat) (_hreach : ReachableBrowserState s)
    (hopen : s.context.isSome) (hacct : s.activeAccount = some A) (hne : A ≠ B) :
    (getPersistentContext B fresh s).2.1 =
      .release :: ((if s.browser.isSome then [.browserShutdown] else []) ++ [.launch B]) ∧
    ((getPersistentContext B fresh s).2.1.count .release = 1) ∧
    ((getPersistentContext B fresh s).2.1.count (.launch B) = 1) ∧
    (getPersistentContext B fresh s).1 =
      { browser := none, context := some fresh, activeAccount := some B } := by
  have hguard : ¬ (s.context.isSome ∧ s.activeAccount = some B) := by
    rintro ⟨-, h2⟩
    rw [hacct] at h2
    exact hne (Option.some.injEq .. ▸ h2)
  unfold getPersistentContext closeBrowser
  rw [dif_neg hguard]
  refine ⟨?_, ?_, ?_, rfl⟩
  · simp [hopen]
  · cases hb : s.browser with
    | none => simp [hopen, hb, List.count_cons, List.count_nil]
    | some b => simp [hopen, hb, List.count_cons, List.count_nil]
  · cases hb : s.browser with
    | none => simp [hopen, hb, List.count_cons, List.count_nil]
    | some b => simp [hopen, hb, List.count_cons, List.count_nil]

/-- C1 witness: switching from an open `"alice"` session to `"bob"`
produces exactly the trace `[release, launch "bob"]`. -/
theorem acquire_switch_releases_before_launch_witness :
    (getPersistentContext "bob" 1 openAliceState).2.1 =
      .release :: ((if openAliceState.browser.isSome then [.browserShutdown] else []) ++
        [.launch "bob"]) ∧
    ((getPersistentContext "bob" 1 openAliceState).2.1.count .release = 1) ∧
    ((getPersistentContext "bob" 1 openAliceState).2.1.count (.launch "bob") = 1) ∧
    (getPersistentContext "bob" 1 openAliceState).1 =
      { browser := none, context := some 1, activeAccount := some "bob" } :=
  acquire_switch_releases_before_launch openAliceState "alice" "bob" 1
    (ReachableBrowserState.persistent initialBrowserState "alice" 0
      ReachableBrowserState.init)
    (by decide) (by decide) (by decide)

/-- C7: acquiring a session for the account that is already live is a
no-op — the existing context is returned, the state is unchanged, and no
teardown and no launch occurs. -/
theorem acquire_same_account_idempotent (s : BrowserState) (A : String)
    (fresh ctx : Nat) (hctx : s.context = some ctx) (hacct : s.activeAccount = some A) :
    getPersistentContext A fresh s = (s, [], ctx) := by
  have hguard : s.context.isSome ∧ s.activeAccount = some A := by
    constructor
    · rw [hctx]; rfl
    · exact hacct
  unfold getPersistentContext
  rw [dif_pos hguard]
  have : s.context.get hguard.1 = ctx := by
    have := hguard.1
    rw [Option.eq_some_iff_get_eq] at hctx
    obtain ⟨h1, h2⟩ := hctx
    exact h2
  rw [this]

/-- C7 witness: re-acquiring `"alice"` while `"alice"` is live returns the
existing context handle 0 with no events and no state change. -/
theorem acquire_same_account_idempotent_witness :
    getPersistentContext "alice" 7 openAliceState = (openAliceState, [], 0) :=
  acquire_same_account_idempotent openAliceState "alice" 7 0 (by decide) (by decide)

/-! ## Clearing persisted sessions (claim C9) -/

/-- C9 counterexample: account names are joined verbatim into paths, so for
the accounts `"a"` and `"a/b"`, clearing `"a"` also deletes `"a/b"`'s data
directory — another account's directory does not stay unchanged. -/
theorem clearSessionData_nested_counterexample :
    ("a/b" : String) ≠ "a" ∧
    getAccountDataDir "/home/user" "a/b" ∈ fsNestedAccounts ∧
    getAccountDataDir "/home/user" "a/b" ∉
      clearSessionData "/home/user" "a" fsNestedAccounts := by
  refine ⟨by decide, by decide, by decide⟩

/-- C9 (amended): `clearSessionData` deletes exactly the subtree of the
named account's data directory: every path outside that subtree — in
particular the data directory of any other account whose name does not
extend the cleared name as a path — is untouched, every path inside it is
removed when the directory exists, and the call is a silent no-op when the
directory does not exist. -/
theorem clearSessionData_frame (home name : String) (fs : List String) :
    (getAccountDataDir home name ∉ fs → clearSessionData home name fs = fs) ∧
    (∀ p, underPath (getAccountDataDir home name) p = false →
      (p ∈ clearSessionData home name fs ↔ p ∈ fs)) ∧
    (getAccountDataDir home name ∈ fs →
      ∀ p, underPath (getAccountDataDir home name) p = true →
        p ∉ clearSessionData home name fs) ∧
    (∀ name', underPath (getAccountDataDir home name) (getAccountDataDir home name') = false →
      (getAccountDataDir home name' ∈ clearSessionData home name fs ↔
        getAccountDataDir home name' ∈ fs)) := by
  have hframe : ∀ p, underPath (getAccountDataDir home name) p = false →
      (p ∈ clearSessionData home name fs ↔ p ∈ fs) := by
    intro p hp
    unfold clearSessionData
    by_cases hmem : getAccountDataDir home name ∈ fs
    · rw [if_pos hmem]
      unfold rmRecursive
      rw [List.mem_filter]
      constructor
      · exact fun h => h.1
      · exact fun h => ⟨h, by rw [hp]; rfl⟩
    · rw [if_neg hmem]
  refine ⟨?_, hframe, ?_, ?_⟩
  · intro hmem
    unfold clearSessionData
    rw [if_neg hmem]
  · intro hmem p hp
    unfold clearSessionData
    rw [if_pos hmem]
    unfold rmRecursive
    rw [List.mem_filter]
    rintro ⟨-, habs⟩
    rw [hp] at habs
    exact Bool.noConfusion habs
  · intro name' h
    exact hframe _ h

/-- C9 witness: clearing `"a"` among sibling accounts `"a"` and `"b"`
removes `"a"`'s directory, leaves `"b"`'s, and clearing an absent
account's directory is a no-op. -/
theorem clearSessionData_frame_witness :
    clearSessionData "/home/user" "ghost" fsSiblingAccounts = fsSiblingAccounts ∧
    (getAccountDataDir "/home/user" "b" ∈ clearSessionData "/home/user" "a" fsSiblingAccounts ↔
      getAccountDataDir "/home/user" "b" ∈ fsSiblingAccounts) ∧
    getAccountDataDir "/home/user" "a" ∉ clearSessionData "/home/user" "a" fsSiblingAccounts := by
  refine ⟨?_, ?_, ?_⟩
  · exact (clearSessionData_frame "/home/user" "ghost" fsSiblingAccounts).1 (by decide)
  · exact (clearSessionData_frame "/home/user" "a" fsSiblingAccounts).2.2.2 "b" (by decide)
  · exact (clearSessionData_frame "/home/user" "a" fsSiblingAccounts).2.2.1 (by decide)
      (getAccountDataDir "/home/user" "a") (by decide)

/-! ## Legacy migration (claim C8) -/

/-- C8: the migrator is a no-op when the legacy directory does not exist or
a configuration file already exists; otherwise it renames (moves, does not
copy) the legacy directory to the per-account root under the reserved name
`"default"` and persists a configuration whose only account is `"default"`
with `"default"` as the default; running it twice in a row changes nothing
the second time. -/
theorem migrateIfNeeded_spec (now now' : String) (fs : MigrationFs) :
    (fs.legacyDir = none → migrateIfNeeded now fs = fs) ∧
    (fs.configFile.isSome → migrateIfNeeded now fs = fs) ∧
    (∀ content, fs.legacyDir = some content → fs.configFile = none →
      migrateIfNeeded now fs =
        { legacyDir := none,
          configFile := some (saveConfig
            { defaultAccount := "default",
              accounts := [("default", { handle := none, addedAt := now })] }),
          accountsRootExists := true,
          accountDirs := objSet fs.accountDirs "default" content }) ∧
    (migrateIfNeeded now' (migrateIfNeeded now fs) = migrateIfNeeded now fs) := by
  refine ⟨?_, ?_, ?_, ?_⟩
  · intro h
    unfold migrateIfNeeded
    rw [h]
  · intro h
    cases hl : fs.legacyDir with
    | none => unfold migrateIfNeeded; rw [hl]
    | some content => simp only [migrateIfNeeded, hl, h, if_true]
  · intro content hl hc
    simp only [migrateIfNeeded, hl, hc, Option.isSome_none, Bool.false_eq_true, if_false]
  · cases hl : fs.legacyDir with
    | none =>
      have h1 : migrateIfNeeded now fs = fs := by unfold migrateIfNeeded; rw [hl]
      have h2 : migrateIfNeeded now' fs = fs := by unfold migrateIfNeeded; rw [hl]
      rw [h1, h2]
    | some content =>
      by_cases hc : fs.configFile.isSome
      · have h1 : migrateIfNeeded now fs = fs := by
          simp only [migrateIfNeeded, hl, hc, if_true]
        have h2 : migrateIfNeeded now' fs = fs := by
          simp only [migrateIfNeeded, hl, hc, if_true]
        rw [h1, h2]
      · have h1 : migrateIfNeeded now fs =
            { legacyDir := none,
              configFile := some (saveConfig
                { defaultAccount := "default",
                  accounts := [("default", { handle := none, addedAt := now })] }),
              accountsRootExists := true,
              accountDirs := objSet fs.accountDirs "default" content } := by
          simp only [migrateIfNeeded, hl, if_neg hc]
        rw [h1]
        unfold migrateIfNeeded
        rfl

/-- C8 witness: the migration algorithm evaluated on each kind of disk
state — legacy only, no legacy, already migrated — plus idempotence on the
legacy-only state. -/
theorem migrateIfNeeded_spec_witness :
    migrateIfNeeded "t0" fsNoLegacy = fsNoLegacy ∧
    migrateIfNeeded "t0" fsAlreadyMigrated = fsAlreadyMigrated ∧
    migrateIfNeeded "t0" fsLegacyOnly =
      { legacyDir := none,
        configFile := some (saveConfig
          { defaultAccount := "default",
            accounts := [("default", { handle := none, addedAt := "t0" })] }),
        accountsRootExists := true,
        accountDirs := objSet fsLegacyOnly.accountDirs "default" 42 } ∧
    migrateIfNeeded "t1" (migrateIfNeeded "t0" fsLegacyOnly) =
      migrateIfNeeded "t0" fsLegacyOnly := by
  refine ⟨?_, ?_, ?_, ?_⟩
  · exact (migrateIfNeeded_spec "t0" "t1" fsNoLegacy).1 rfl
  · exact (migrateIfNeeded_spec "t0" "t1" fsAlreadyMigrated).2.1 rfl
  · exact (migrateIfNeeded_spec "t0" "t1" fsLegacyOnly).2.2.1 42 rfl rfl
  · exact (migrateIfNeeded_spec "t0" "t1" fsLegacyOnly).2.2.2

/-! ## Fail-soft configuration loading (claim C4) -/

/-- C4: `loadConfig` is fail-soft — whenever the persisted file is absent
or its content fails to parse as JSON, it returns the fresh empty
configuration value (`defaultConfig()`), and it never raises: it is a
total function of the on-disk state, with the `catch` branch absorbing
every parse failure. -/
theorem loadConfig_fail_soft (file : Option String) :
    (file = none → loadConfigRaw file = configToJson defaultConfig) ∧
    (∀ content, file = some content → parseJson content = none →
      loadConfigRaw file = configToJson defaultConfig) := by
  constructor
  · rintro rfl; rfl
  · rintro content rfl hparse
    simp only [loadConfigRaw, hparse]

/-- C4 witness: a missing file and a corrupt file both load as the empty
configuration. -/
theorem loadConfig_fail_soft_witness :
    loadConfigRaw none = configToJson defaultConfig ∧
    loadConfigRaw (some "not valid json") = configToJson defaultConfig := by
  constructor
  · exact (loadConfig_fail_soft none).1 rfl
  · exact (loadConfig_fail_soft (some "not valid json")).2 "not valid json" rfl (by rfl)

/-! ## Round-tripping `JSON.parse` over `JSON.stringify` output (claim C6) -/

theorem isWsList_nil : IsWsList [] := by
  intro c hc
  exact absurd hc (List.not_mem_nil c)

theorem isWsList_gap : IsWsList jsonGap := by
  unfold IsWsList
  decide

theorem isWsList_append (l1 l2 : List Char) (h1 : IsWsList l1) (h2 : IsWsList l2) :
    IsWsList (l1 ++ l2) := by
  intro c hc
  rcases List.mem_append.mp hc with h | h
  · exact h1 c h
  · exact h2 c h

theorem isWsList_cons (c : Char) (l : List Char) (hc : isJsonWs c = true)
    (hl : IsWsList l) : IsWsList (c :: l) := by
  intro x hx
  rcases List.mem_cons.mp hx with h | h
  · rw [h]; exact hc
  · exact hl x h

theorem skipWs_append_ws (w l : List Char) (hw : IsWsList w) :
    skipWs (w ++ l) = skipWs l := by
  induction w with
  | nil => rfl
  | cons c cs ih =>
    simp only [List.cons_append, skipWs]
    rw [if_pos (hw c (List.mem_cons_self c cs))]
    exact ih (fun x hx => hw x (List.mem_cons_of_mem c hx))

theorem skipWs_cons_not_ws (c : Char) (l : List Char) (hc : isJsonWs c = false) :
    skipWs (c :: l) = c :: l := by
  simp only [skipWs]
  rw [if_neg (by rw [hc]; exact fun h => Bool.noConfusion h)]

theorem hexVal_hexDigitChar (n : Nat) (h : n < 16) :
    hexVal (hexDigitChar n) = some n := by
  interval_cases n <;> rfl

theorem parseStringBody_escapeChar (c : Char) (Z : List Char) :
    parseStringBody (escapeChar c ++ Z) =
      (parseStringBody Z).map (fun p => (c :: p.1, p.2)) := by
  by_cases h1 : c = '"'
  · subst h1
    simp [escapeChar, parseStringBody]
    rw [parseEscapeBody.eq_def]
    simp [unescapeChar]
  by_cases h2 : c = '\\'
  · subst h2
    simp [escapeChar, parseStringBody]
    rw [parseEscapeBody.eq_def]
    simp [unescapeChar]
  by_cases h3 : c = Char.ofNat 8
  · subst h3
    simp [escapeChar, parseStringBody]
    rw [parseEscapeBody.eq_def]
    simp [unescapeChar]
  by_cases h4 : c = Char.ofNat 12
  · subst h4
    simp [escapeChar, parseStringBody]
    rw [parseEscapeBody.eq_def]
    simp [unescapeChar]
  by_cases h5 : c = '\n'
  · subst h5
    simp [escapeChar, parseStringBody]
    rw [parseEscapeBody.eq_def]
    simp [unescapeChar]
  by_cases h6 : c = '\r'
  · subst h6
    simp [escapeChar, parseStringBody]
    rw [parseEscapeBody.eq_def]
    simp [unescapeChar]
  by_cases h7 : c = '\t'
  · subst h7
    simp [escapeChar, parseStringBody]
    rw [parseEscapeBody.eq_def]
    simp [unescapeChar]
  by_cases h8 : c.toNat < 32
  · have hdiv : c.toNat / 16 < 16 := by omega
    have hmod : c.toNat % 16 < 16 := by omega
    have harith : ((0 * 16 + 0) * 16 + c.toNat / 16) * 16 + c.toNat % 16 = c.toNat := by
      omega
    simp only [escapeChar, if_neg h1, if_neg h2, if_neg h3, if_neg h4, if_neg h5,
      if_neg h6, if_neg h7, if_pos h8, List.cons_append, List.nil_append]
    rw [parseStringBody]
    rw [if_neg (by decide), if_pos rfl]
    rw [parseEscapeBody]
    rw [if_pos rfl]
    rw [show hexVal '0' = some 0 from rfl]
    rw [hexVal_hexDigitChar _ hdiv, hexVal_hexDigitChar _ hmod]
    dsimp only
    simp only [harith, Char.ofNat_toNat]
  · simp only [escapeChar, if_neg h1, if_neg h2, if_neg h3, if_neg h4, if_neg h5,
      if_neg h6, if_neg h7, if_neg h8, List.cons_append, List.nil_append]
    rw [parseStringBody]
    rw [if_neg h1, if_neg h2, if_neg (by omega)]

theorem parseStringBody_escListChars (cs : List Char) (Z : List Char) :
    parseStringBody ((cs.map escapeChar).flatten ++ '"' :: Z) = some (cs, Z) := by
  induction cs with
  | nil =>
    simp only [List.map_nil, List.flatten_nil, List.nil_append]
    rw [parseStringBody, if_pos rfl]
  | cons c cs ih =>
    rw [List.map_cons, List.flatten_cons, List.append_assoc, parseStringBody_escapeChar, ih]
    rfl

theorem parseStringBody_quote (s : String) (Z : List Char) :
    parseStringBody (escList s ++ '"' :: Z) = some (s.data, Z) :=
  parseStringBody_escListChars s.data Z

theorem skipWs_cons_ws (c : Char) (l : List Char) (hc : isJsonWs c = true) :
    skipWs (c :: l) = skipWs l := by
  simp only [skipWs]
  rw [if_pos hc]

theorem parseValue_ws (fuel : Nat) (w l : List Char) (hw : IsWsList w) :
    parseValue fuel (w ++ l) = parseValue fuel l := by
  cases fuel with
  | zero => rfl
  | succ f =>
    simp only [parseValue]
    rw [skipWs_append_ws _ _ hw]

theorem parseMembers_ws (fuel : Nat) (w l : List Char) (hw : IsWsList w) :
    parseMembers fuel (w ++ l) = parseMembers fuel l := by
  cases fuel with
  | zero => rfl
  | succ f =>
    simp only [parseMembers]
    rw [skipWs_append_ws _ _ hw]

theorem parseValue_openBrace (fuel : Nat) (X : List Char) :
    parseValue (fuel + 1) ('{' :: X) =
      (match skipWs X with
       | [] => none
       | c' :: cs' =>
         if c' = '}' then some (.obj [], cs')
         else
           match parseMembers fuel (c' :: cs') with
           | some (ms, r) => some (.obj ms, r)
           | none => none) := by
  simp only [parseValue]
  rw [skipWs_cons_not_ws '{' _ rfl]
  dsimp only
  rw [if_neg (by decide), if_pos rfl]

theorem parseValue_quoteString (fuel : Nat) (s : String) (Z : List Char) :
    parseValue (fuel + 1) (quoteString s ++ Z) = some (.str s, Z) := by
  simp only [quoteString, List.cons_append, List.append_assoc, List.singleton_append,
    parseValue]
  rw [skipWs_cons_not_ws '"' _ rfl]
  dsimp only
  rw [if_pos rfl]
  rw [parseStringBody_quote]
  simp

theorem renderMembers_eq_head (ind : List Char) (m : String × Json)
    (ms : List (String × Json)) :
    renderMembers ind m ms =
      ind ++ ('"' :: (escList m.1 ++ '"' :: ':' :: ' ' ::
        (renderJson ind m.2 ++ memberSep ind ms))) := by
  obtain ⟨k, v⟩ := m
  cases ms with
  | nil =>
    simp only [renderMembers, memberSep, quoteString, List.append_nil, List.cons_append,
      List.append_assoc, List.singleton_append, List.nil_append]
  | cons m' ms' =>
    simp only [renderMembers, memberSep, quoteString, List.cons_append, List.append_assoc,
      List.singleton_append, List.nil_append]

theorem parseMembers_one (fuel : Nat) (ind : List Char) (hind : IsWsList ind)
    (k : String) (vr tail : List Char) (v : Json)
    (hv : parseValue fuel (' ' :: (vr ++ tail)) = some (v, tail)) :
    parseMembers (fuel + 1)
      (ind ++ ('"' :: (escList k ++ '"' :: ':' :: ' ' :: (vr ++ tail)))) =
      (match skipWs tail with
       | c2 :: r4 =>
         if c2 = ',' then
           match parseMembers fuel r4 with
           | some (ms, r5) => some ((k, v) :: ms, r5)
           | none => none
         else if c2 = '}' then some ([(k, v)], r4)
         else none
       | [] => none) := by
  simp only [parseMembers]
  rw [skipWs_append_ws _ _ hind, skipWs_cons_not_ws '"' _ rfl]
  dsimp only
  rw [if_pos rfl]
  rw [parseStringBody_quote]
  dsimp only
  rw [skipWs_cons_not_ws ':' _ rfl]
  dsimp only
  rw [if_pos rfl]
  rw [hv]

theorem parseValue_objCons (fuel : Nat) (ind : List Char) (hind : IsWsList ind)
    (m : String × Json) (ms : List (String × Json)) (Z : List Char)
    (hm : parseMembers fuel
        (renderMembers (ind ++ jsonGap) m ms ++ ('\n' :: (ind ++ '}' :: Z))) =
      some (m :: ms, Z)) :
    parseValue (fuel + 1) (renderJson ind (.obj (m :: ms)) ++ Z) =
      some (.obj (m :: ms), Z) := by
  have hind' : IsWsList (ind ++ jsonGap) := isWsList_append _ _ hind isWsList_gap
  rw [renderMembers_eq_head, List.append_assoc, parseMembers_ws _ _ _ hind',
    List.cons_append] at hm
  simp only [List.cons_append, List.append_assoc, List.nil_append] at hm
  rw [show renderJson ind (.obj (m :: ms)) =
      '{' :: '\n' :: (renderMembers (ind ++ jsonGap) m ms ++ '\n' :: (ind ++ ['}'])) from by
    simp [renderJson]]
  rw [renderMembers_eq_head]
  simp only [List.cons_append, List.append_assoc, List.singleton_append, List.nil_append]
  rw [parseValue_openBrace]
  rw [skipWs_cons_ws '\n' _ rfl, skipWs_append_ws _ _ hind,
    skipWs_append_ws _ _ isWsList_gap, skipWs_cons_not_ws '"' _ rfl]
  dsimp only
  rw [if_neg (by decide)]
  rw [hm]

theorem parseMembers_lastStr (fuel : Nat) (ind' : List Char) (hind' : IsWsList ind')
    (k s : String) (w Z : List Char) (hw : IsWsList w) :
    parseMembers (fuel + 2)
      (renderMembers ind' (k, .str s) [] ++ ('\n' :: (w ++ '}' :: Z))) =
      some ([(k, .str s)], Z) := by
  rw [renderMembers_eq_head]
  simp only [memberSep, List.append_nil, List.append_assoc, List.cons_append]
  have hv : parseValue (fuel + 1)
      (' ' :: (renderJson ind' (.str s) ++ ('\n' :: (w ++ '}' :: Z)))) =
      some (.str s, '\n' :: (w ++ '}' :: Z)) := by
    rw [show (' ' :: (renderJson ind' (.str s) ++ ('\n' :: (w ++ '}' :: Z)))) =
      ([' '] ++ (renderJson ind' (.str s) ++ ('\n' :: (w ++ '}' :: Z)))) from rfl]
    rw [parseValue_ws _ _ _ (by unfold IsWsList; decide)]
    rw [show renderJson ind' (.str s) = quoteString s from by simp [renderJson]]
    exact parseValue_quoteString fuel s _
  rw [parseMembers_one (fuel + 1) ind' hind' k _ _ _ hv]
  rw [skipWs_cons_ws '\n' _ rfl, skipWs_append_ws _ _ hw, skipWs_cons_not_ws '}' _ rfl]
  dsimp only
  rw [if_neg (by decide), if_pos rfl]

theorem parseMembers_consStr (fuel : Nat) (ind' : List Char) (hind' : IsWsList ind')
    (k s : String) (m2 : String × Json) (ms2 : List (String × Json)) (T Z : List Char)
    (hrest : parseMembers (fuel + 1) (renderMembers ind' m2 ms2 ++ T) = some (m2 :: ms2, Z)) :
    parseMembers (fuel + 2) (renderMembers ind' (k, .str s) (m2 :: ms2) ++ T) =
      some ((k, .str s) :: m2 :: ms2, Z) := by
  rw [renderMembers_eq_head]
  simp only [memberSep, List.append_assoc, List.cons_append]
  have hv : parseValue (fuel + 1)
      (' ' :: (renderJson ind' (.str s) ++ (',' :: '\n' :: (renderMembers ind' m2 ms2 ++ T)))) =
      some (.str s, ',' :: '\n' :: (renderMembers ind' m2 ms2 ++ T)) := by
    rw [show (' ' :: (renderJson ind' (.str s) ++
        (',' :: '\n' :: (renderMembers ind' m2 ms2 ++ T)))) =
      ([' '] ++ (renderJson ind' (.str s) ++
        (',' :: '\n' :: (renderMembers ind' m2 ms2 ++ T)))) from rfl]
    rw [parseValue_ws _ _ _ (by unfold IsWsList; decide)]
    rw [show renderJson ind' (.str s) = quoteString s from by simp [renderJson]]
    exact parseValue_quoteString fuel s _
  rw [parseMembers_one (fuel + 1) ind' hind' k _ _ _ hv]
  rw [skipWs_cons_not_ws ',' _ rfl]
  dsimp only
  rw [if_pos rfl]
  rw [show ('\n' :: (renderMembers ind' m2 ms2 ++ T)) =
    (['\n'] ++ (renderMembers ind' m2 ms2 ++ T)) from rfl]
  rw [parseMembers_ws _ _ _ (by unfold IsWsList; decide)]
  rw [hrest]

theorem parseValue_accountInfo (fuel : Nat) (ind : List Char) (hind : IsWsList ind)
    (info : AccountInfo) (Z : List Char) :
    parseValue (fuel + 4) (renderJson ind (accountInfoToJson info) ++ Z) =
      some (accountInfoToJson info, Z) := by
  have hind' : IsWsList (ind ++ jsonGap) := isWsList_append _ _ hind isWsList_gap
  cases hh : info.handle with
  | none =>
    have hjson : accountInfoToJson info = .obj [("addedAt", .str info.addedAt)] := by
      simp [accountInfoToJson, hh]
    rw [hjson]
    exact parseValue_objCons (fuel + 3) ind hind _ _ Z
      (parseMembers_lastStr (fuel + 1) _ hind' "addedAt" info.addedAt ind Z hind)
  | some h =>
    have hjson : accountInfoToJson info =
        .obj [("handle", .str h), ("addedAt", .str info.addedAt)] := by
      simp [accountInfoToJson, hh]
    rw [hjson]
    exact parseValue_objCons (fuel + 3) ind hind _ _ Z
      (parseMembers_consStr (fuel + 1) _ hind' "handle" h _ _ _ Z
        (parseMembers_lastStr fuel _ hind' "addedAt" info.addedAt ind Z hind))

theorem parseMembers_lastAccount (fuel : Nat) (ind' : List Char) (hind' : IsWsList ind')
    (k : String) (info : AccountInfo) (w Z : List Char) (hw : IsWsList w) :
    parseMembers (fuel + 5)
      (renderMembers ind' (k, accountInfoToJson info) [] ++ ('\n' :: (w ++ '}' :: Z))) =
      some ([(k, accountInfoToJson info)], Z) := by
  rw [renderMembers_eq_head]
  simp only [memberSep, List.append_nil, List.append_assoc, List.cons_append]
  have hv : parseValue (fuel + 4)
      (' ' :: (renderJson ind' (accountInfoToJson info) ++ ('\n' :: (w ++ '}' :: Z)))) =
      some (accountInfoToJson info, '\n' :: (w ++ '}' :: Z)) := by
    rw [show (' ' :: (renderJson ind' (accountInfoToJson info) ++
        ('\n' :: (w ++ '}' :: Z)))) =
      ([' '] ++ (renderJson ind' (accountInfoToJson info) ++
        ('\n' :: (w ++ '}' :: Z)))) from rfl]
    rw [parseValue_ws _ _ _ (by unfold IsWsList; decide)]
    exact parseValue_accountInfo fuel ind' hind' info _
  rw [parseMembers_one (fuel + 4) ind' hind' k _ _ _ hv]
  rw [skipWs_cons_ws '\n' _ rfl, skipWs_append_ws _ _ hw, skipWs_cons_not_ws '}' _ rfl]
  dsimp only
  rw [if_neg (by decide), if_pos rfl]

theorem parseMembers_consAccount (fuel : Nat) (ind' : List Char) (hind' : IsWsList ind')
    (k : String) (info : AccountInfo) (m2 : String × Json) (ms2 : List (String × Json))
    (T Z : List Char)
    (hrest : parseMembers (fuel + 4) (renderMembers ind' m2 ms2 ++ T) = some (m2 :: ms2, Z)) :
    parseMembers (fuel + 5)
      (renderMembers ind' (k, accountInfoToJson info) (m2 :: ms2) ++ T) =
      some ((k, accountInfoToJson info) :: m2 :: ms2, Z) := by
  rw [renderMembers_eq_head]
  simp only [memberSep, List.append_assoc, List.cons_append]
  have hv : parseValue (fuel + 4)
      (' ' :: (renderJson ind' (accountInfoToJson info) ++
        (',' :: '\n' :: (renderMembers ind' m2 ms2 ++ T)))) =
      some (accountInfoToJson info, ',' :: '\n' :: (renderMembers ind' m2 ms2 ++ T)) := by
    rw [show (' ' :: (renderJson ind' (accountInfoToJson info) ++
        (',' :: '\n' :: (renderMembers ind' m2 ms2 ++ T)))) =
      ([' '] ++ (renderJson ind' (accountInfoToJson info) ++
        (',' :: '\n' :: (renderMembers ind' m2 ms2 ++ T)))) from rfl]
    rw [parseValue_ws _ _ _ (by unfold IsWsList; decide)]
    exact parseValue_accountInfo fuel ind' hind' info _
  rw [parseMembers_one (fuel + 4) ind' hind' k _ _ _ hv]
  rw [skipWs_cons_not_ws ',' _ rfl]
  dsimp only
  rw [if_pos rfl]
  rw [show ('\n' :: (renderMembers ind' m2 ms2 ++ T)) =
    (['\n'] ++ (renderMembers ind' m2 ms2 ++ T)) from rfl]
  rw [parseMembers_ws _ _ _ (by unfold IsWsList; decide)]
  rw [hrest]

theorem parseMembers_accountList (items : List (String × AccountInfo))
    (m : String × AccountInfo) (fuel : Nat) (ind' w Z : List Char)
    (hind' : IsWsList ind') (hw : IsWsList w) :
    parseMembers (items.length + (fuel + 5))
      (renderMembers ind' (m.1, accountInfoToJson m.2)
        (items.map (fun p => (p.1, accountInfoToJson p.2))) ++ ('\n' :: (w ++ '}' :: Z))) =
      some ((m.1, accountInfoToJson m.2) ::
        items.map (fun p => (p.1, accountInfoToJson p.2)), Z) := by
  induction items generalizing m Z with
  | nil =>
    simp only [List.map_nil, List.length_nil, Nat.zero_add]
    exact parseMembers_lastAccount fuel ind' hind' m.1 m.2 w Z hw
  | cons p items' ih =>
    simp only [List.map_cons, List.length_cons]
    rw [show items'.length + 1 + (fuel + 5) = items'.length + (fuel + 1) + 5 from by omega]
    exact parseMembers_consAccount (items'.length + (fuel + 1)) ind' hind' m.1 m.2
      _ _ _ Z (ih p Z)

theorem parseValue_accountsJson (as : List (String × AccountInfo)) (fuel : Nat)
    (ind : List Char) (hind : IsWsList ind) (Z : List Char) :
    parseValue (as.length + (fuel + 6))
      (renderJson ind (.obj (as.map (fun p => (p.1, accountInfoToJson p.2)))) ++ Z) =
      some (.obj (as.map (fun p => (p.1, accountInfoToJson p.2))), Z) := by
  cases as with
  | nil =>
    simp only [List.map_nil, List.length_nil, Nat.zero_add]
    rw [show renderJson ind (Json.obj []) = ['{', '}'] from by simp [renderJson]]
    rw [show ((['{', '}'] : List Char) ++ Z) = '{' :: '}' :: Z from rfl]
    rw [show (fuel + 6) = (fuel + 5) + 1 from rfl]
    rw [parseValue_openBrace]
    rw [skipWs_cons_not_ws '}' _ rfl]
    dsimp only
    rw [if_pos rfl]
  | cons p as' =>
    simp only [List.map_cons, List.length_cons]
    rw [show as'.length + 1 + (fuel + 6) = as'.length + (fuel + 1 + 5) + 1 from by omega]
    exact parseValue_objCons (as'.length + (fuel + 1 + 5)) ind hind _ _ Z
      (parseMembers_accountList as' p (fuel + 1) (ind ++ jsonGap) ind Z
        (isWsList_append _ _ hind isWsList_gap) hind)

theorem parseValue_configJson (c : Config) (fuel : Nat) (Z : List Char) :
    parseValue (c.accounts.length + (fuel + 9)) (renderJson [] (configToJson c) ++ Z) =
      some (configToJson c, Z) := by
  have hnil : IsWsList ([] : List Char) := isWsList_nil
  have hgap : IsWsList jsonGap := isWsList_gap
  rw [show configToJson c = .obj [("defaultAccount", .str c.defaultAccount),
    ("accounts", .obj (c.accounts.map (fun p => (p.1, accountInfoToJson p.2))))] from rfl]
  rw [show c.accounts.length + (fuel + 9) = c.accounts.length + (fuel + 8) + 1 from rfl]
  apply parseValue_objCons (c.accounts.length + (fuel + 8)) [] hnil _ _ Z
  simp only [List.nil_append]
  have hrest : parseMembers (c.accounts.length + (fuel + 7))
      (renderMembers jsonGap
        ("accounts",
          Json.obj (c.accounts.map (fun p => (p.1, accountInfoToJson p.2)))) [] ++
        ('\n' :: ('}' :: Z))) =
      some ([("accounts",
        Json.obj (c.accounts.map (fun p => (p.1, accountInfoToJson p.2))))], Z) := by
    rw [renderMembers_eq_head]
    simp only [memberSep, List.append_nil, List.append_assoc, List.cons_append]
    have hv : parseValue (c.accounts.length + (fuel + 6))
        (' ' :: (renderJson jsonGap
            (Json.obj (c.accounts.map (fun p => (p.1, accountInfoToJson p.2)))) ++
          ('\n' :: ('}' :: Z)))) =
        some (Json.obj (c.accounts.map (fun p => (p.1, accountInfoToJson p.2))),
          '\n' :: ('}' :: Z)) := by
      rw [show (' ' :: (renderJson jsonGap
            (Json.obj (c.accounts.map (fun p => (p.1, accountInfoToJson p.2)))) ++
          ('\n' :: ('}' :: Z)))) =
        ([' '] ++ (renderJson jsonGap
            (Json.obj (c.accounts.map (fun p => (p.1, accountInfoToJson p.2)))) ++
          ('\n' :: ('}' :: Z)))) from rfl]
      rw [parseValue_ws _ _ _ (by unfold IsWsList; decide)]
      exact parseValue_accountsJson c.accounts fuel jsonGap hgap _
    rw [show c.accounts.length + (fuel + 7) = (c.accounts.length + (fuel + 6)) + 1 from rfl]
    rw [parseMembers_one (c.accounts.length + (fuel + 6)) jsonGap hgap "accounts" _ _ _ hv]
    rw [skipWs_cons_ws '\n' _ rfl, skipWs_cons_not_ws '}' _ rfl]
    dsimp only
    rw [if_neg (by decide), if_pos rfl]
  rw [show c.accounts.length + (fuel + 8) = (c.accounts.length + (fuel + 6)) + 2 from rfl]
  exact parseMembers_consStr (c.accounts.length + (fuel + 6)) jsonGap hgap
    "defaultAccount" c.defaultAccount _ _ _ Z hrest

theorem quoteString_length (s : String) : 2 ≤ (quoteString s).length := by
  simp [quoteString]

theorem renderMembers_length (ind : List Char) (m : String × Json)
    (ms : List (String × Json)) : ms.length + 1 ≤ (renderMembers ind m ms).length := by
  induction ms generalizing m with
  | nil =>
    obtain ⟨k, v⟩ := m
    simp only [renderMembers, List.length_append, List.length_cons, List.length_nil]
    have := quoteString_length k
    omega
  | cons m' ms' ih =>
    obtain ⟨k, v⟩ := m
    simp only [renderMembers, List.length_append, List.length_cons, List.length_nil]
    have h1 := ih m'
    have := quoteString_length k
    omega

theorem renderJson_accountsObj_length (as : List (String × AccountInfo)) (ind : List Char) :
    as.length + 2 ≤
      (renderJson ind (.obj (as.map (fun p => (p.1, accountInfoToJson p.2))))).length := by
  cases as with
  | nil =>
    simp [renderJson]
  | cons p as' =>
    simp only [List.map_cons, renderJson, List.length_cons, List.length_append]
    have h1 := renderMembers_length (ind ++ jsonGap) (p.1, accountInfoToJson p.2)
      (as'.map (fun p => (p.1, accountInfoToJson p.2)))
    simp only [List.length_map] at h1 ⊢
    omega

theorem renderConfig_length (c : Config) :
    c.accounts.length + 7 ≤ (renderJson [] (configToJson c)).length := by
  rw [show configToJson c = .obj [("defaultAccount", .str c.defaultAccount),
    ("accounts", .obj (c.accounts.map (fun p => (p.1, accountInfoToJson p.2))))] from rfl]
  simp only [renderJson, renderMembers, List.length_append, List.length_cons,
    List.length_nil]
  have h1 := renderJson_accountsObj_length c.accounts ([] ++ jsonGap)
  have h2 := quoteString_length c.defaultAccount
  omega

theorem parseJson_saveConfig (c : Config) :
    parseJson (saveConfig c) = some (configToJson c) := by
  have hlen := renderConfig_length c
  unfold parseJson
  rw [show (saveConfig c).data = renderJson [] (configToJson c) ++ ['\n'] from rfl]
  rw [show (renderJson [] (configToJson c) ++ ['\n']).length + 1 =
    c.accounts.length +
      ((((renderJson [] (configToJson c)).length) - (c.accounts.length + 7)) + 9) from by
      simp only [List.length_append, List.length_cons, List.length_nil]
      omega]
  rw [parseValue_configJson]
  dsimp only
  rw [show skipWs ['\n'] = [] from rfl]
  rw [if_pos rfl]

/-- C6: for every persisted configuration file produced by `saveConfig`,
composing a `loadConfig` (which returns the raw parsed value) with a
second `saveConfig` writes byte-identical file content — `JSON.parse`
inverts `JSON.stringify(·, null, 2)` on every configuration document, so
`save(load())` is a fixed point of persistence. -/
theorem save_load_save_byte_identical (c : Config) :
    saveJsonValue (loadConfigRaw (some (saveConfig c))) = saveConfig c := by
  rw [show loadConfigRaw (some (saveConfig c)) = configToJson c from by
    simp only [loadConfigRaw, parseJson_saveConfig]]
  rfl

end XCli
